import Mathlib

/-!
# DynamicThreadPool

A shallow embedding of `DynamicThreadPool.cpp` / `DynamicThreadPool.h`.

The members of the C++ class that hold data become the fields of `Pool`.
Every block of code that runs under `queueMutex` is one atomic function on
`Pool`; the interleaving of threads is the order in which these functions are
applied (`step`, `run`).  Where the destructor and `setThreadCount` join the
workers, the workers take turns in an order given by a schedule (`joinThreads`):
the locked block of a worker is one turn and the call of the action, made
outside the lock, is another.  `size_t` values are natural numbers, and the one
place where the source does arithmetic that can wrap (`taskThreshold +=
scalingFactor`) is reduced modulo `2 ^ 64`.

A task's action is a C++ callable.  The worker loop distinguishes three ways
in which the call can end: it returns, it throws something derived from
`std::exception` (caught by the loop), or it throws anything else (not caught,
so the thread function is left by an exception and `std::terminate` ends the
process).  Actions are assumed to end in one of these three ways.
-/

namespace DynamicThreadPool

/-- Number of values of a `size_t` (64 bit). -/
def sizeMod : Nat := 2 ^ 64

/-- How a call `task.func(task.arg)` ends. -/
inductive Outcome where
  /-- The action returned normally. -/
  | returned
  /-- The action threw an exception derived from `std::exception`; `what` is `e.what()`. -/
  | threw (what : String)
  /-- The action threw an object that is not a `std::exception`. -/
  | foreign
  deriving DecidableEq, Repr

/-- Whether the worker loop goes on after the call: the action returned, or it
threw what the `catch` of the loop handles. -/
def Outcome.handled : Outcome → Bool
  | .returned => true
  | .threw _ => true
  | .foreign => false

/-- The struct `Task` of the header: a name, a callable and its argument. -/
structure Task (α : Type) where
  name : String
  func : α → Outcome
  arg : α

/-- The data members of `DynamicThreadPool`.  `threads` is `threads.size()`;
the mutex and the condition variable are represented by the atomicity of the
functions below. -/
@[ext]
structure Pool (α : Type) where
  threads : Nat
  taskQueue : List (Task α)
  stop : Bool
  maxQueueSize : Nat
  taskThreshold : Nat
  scalingFactor : Nat

/-- What the workers leave behind outside the pool: the tasks whose action
was called, in the order of the calls, and the lines written to `std::cerr`. -/
structure Trace (α : Type) where
  executed : List (Task α)
  log : List String

/-- The empty trace. -/
def Trace.empty {α : Type} : Trace α := ⟨[], []⟩

/-- How a call of a member function ends. -/
inductive Call (σ : Type) where
  /-- The call returned, leaving `v`. -/
  | returned (v : σ)
  /-- The calling thread is suspended in `condition.wait`. -/
  | blocked
  /-- An exception left a thread function: `std::terminate`. -/
  | terminated
  /-- The bound on loop iterations given to the model was too small. -/
  | outOfFuel

/-- `DynamicThreadPool::setMaxQueueSize`. -/
def setMaxQueueSize {α : Type} (s : Pool α) (maxSize : Nat) : Pool α :=
  { s with maxQueueSize := maxSize }

/-- `DynamicThreadPool::setTaskThresholdAndScaling`. -/
def setTaskThresholdAndScaling {α : Type} (s : Pool α) (threshold scalingFactor : Nat) :
    Pool α :=
  { s with taskThreshold := threshold, scalingFactor := scalingFactor }

/-- `DynamicThreadPool::addTask`; `hw` is the value of
`std::thread::hardware_concurrency()`.  The call is `blocked` while the
predicate of `condition.wait` is false. -/
def addTask {α : Type} (hw : Nat) (s : Pool α) (t : Task α) : Call (Pool α) :=
  if s.stop || s.maxQueueSize == 0 || decide (s.taskQueue.length < s.maxQueueSize) then
    if s.stop then
      .returned s
    else
      let q := s.taskQueue ++ [t]
      if s.taskThreshold > 0 ∧ s.scalingFactor > 0 ∧ q.length > s.taskThreshold then
        let maxThreads := hw / 2
        let currentThreads := s.threads
        let newThreads :=
          min s.scalingFactor
            (if maxThreads > currentThreads then maxThreads - currentThreads else 0)
        .returned { s with
          taskQueue := q
          threads := currentThreads + newThreads
          taskThreshold := (s.taskThreshold + s.scalingFactor) % sizeMod }
      else
        .returned { s with taskQueue := q }
  else
    .blocked

/-- What the locked block at the head of the worker loop does. -/
inductive Locked (α : Type) where
  /-- The predicate of `condition.wait` is false: the worker stays suspended. -/
  | waiting
  /-- The `return` of the loop: stop is set and the queue is empty. -/
  | exit
  /-- The worker took `task = taskQueue.front()` and popped it. -/
  | took (t : Task α) (s : Pool α)

/-- The locked block of `workerThread`: wait for `stop || !taskQueue.empty()`,
return if `stop && taskQueue.empty()`, otherwise take the front task. -/
def dequeue {α : Type} (s : Pool α) : Locked α :=
  match s.taskQueue with
  | [] => if s.stop then .exit else .waiting
  | t :: rest => .took t { s with taskQueue := rest }

/-- One iteration of the `while (true)` of `workerThread`. -/
inductive Iter (α : Type) where
  /-- The worker is suspended in `condition.wait`. -/
  | waiting
  /-- The worker left the loop by `return`. -/
  | exited
  /-- The worker took `t`, called its action and goes on to the next iteration;
  `line` is what the `catch` block wrote to `std::cerr`, if it ran. -/
  | ran (s : Pool α) (t : Task α) (line : Option String)
  /-- The action of `t` threw past the `catch`: the process is terminated. -/
  | terminated (s : Pool α) (t : Task α)

/-- One iteration of the worker loop: the locked block, then the `try` /
`catch (const std::exception &)` around `task.func(task.arg)`. -/
def workerIter {α : Type} (s : Pool α) : Iter α :=
  match dequeue s with
  | .waiting => .waiting
  | .exit => .exited
  | .took t s1 =>
    match t.func t.arg with
    | .returned => .ran s1 t none
    | .threw what => .ran s1 t (some ("Task " ++ t.name ++ " failed: " ++ what))
    | .foreign => .terminated s1 t

/-- `DynamicThreadPool::workerThread` run on its own for at most `fuel`
iterations, starting with trace `tr`.  `blocked` means the worker is suspended
waiting for work. -/
def workerThread {α : Type} : Nat → Pool α → Trace α → Call (Pool α × Trace α)
  | 0, _, _ => .outOfFuel
  | fuel + 1, s, tr =>
    match workerIter s with
    | .waiting => .blocked
    | .exited => .returned (s, tr)
    | .ran s1 t line => workerThread fuel s1 ⟨tr.executed ++ [t], tr.log ++ line.toList⟩
    | .terminated _ _ => .terminated

/-- Where a running worker thread stands in its loop. -/
inductive Worker (α : Type) where
  /-- At the head of the loop, before the locked block. -/
  | idle
  /-- Past the locked block with `task = t`, before the call `task.func(task.arg)`. -/
  | holding (t : Task α)

/-- The tasks that workers have taken from the queue and not called yet. -/
def held {α : Type} : List (Worker α) → List (Task α)
  | [] => []
  | .idle :: ws => held ws
  | .holding t :: ws => t :: held ws

/-- What one worker does when it is its turn. -/
inductive Move (α : Type) where
  /-- The worker went on, and now stands at `w`. -/
  | went (s : Pool α) (tr : Trace α) (w : Worker α)
  /-- The worker left its loop by `return`. -/
  | exited
  /-- The worker is suspended in `condition.wait`. -/
  | suspended
  /-- The action threw past the `catch`: the process is terminated. -/
  | terminated

/-- One turn of one worker.  The locked block is one turn; the call of the
action, which `workerThread` makes after it has released `queueMutex`, is
another, so the turns of other workers can come between the two. -/
def move {α : Type} (s : Pool α) (tr : Trace α) : Worker α → Move α
  | .idle =>
    match dequeue s with
    | .waiting => .suspended
    | .exit => .exited
    | .took t s1 => .went s1 tr (.holding t)
  | .holding t =>
    match t.func t.arg with
    | .returned => .went s ⟨tr.executed ++ [t], tr.log⟩ .idle
    | .threw what =>
      .went s ⟨tr.executed ++ [t], tr.log ++ ["Task " ++ t.name ++ " failed: " ++ what]⟩ .idle
    | .foreign => .terminated

/-- The loop `for (std::thread &thread : threads) thread.join()` over the
running workers `ws`: it returns when every worker has left its loop.  The
workers run side by side; `sched` is the interleaving: at each turn its head
picks which of the running workers moves (the head of `ws` rotated by that
number).  A worker that has left its loop is dropped from `ws`.  `fuel` bounds
the number of turns. -/
def joinThreads {α : Type} :
    Nat → List Nat → Pool α → Trace α → List (Worker α) → Call (Pool α × Trace α)
  | 0, _, s, tr, ws =>
    match ws with
    | [] => .returned (s, tr)
    | _ :: _ => .outOfFuel
  | fuel + 1, sched, s, tr, ws =>
    match ws.rotate (sched.headD 0) with
    | [] => .returned (s, tr)
    | w :: others =>
      match move s tr w with
      | .went s1 tr1 w1 => joinThreads fuel sched.tail s1 tr1 (w1 :: others)
      | .exited => joinThreads fuel sched.tail s tr others
      | .suspended => .blocked
      | .terminated => .terminated

/-- The number of turns the workers `ws` need to drain the queue of `s` and
leave: two for each queued task, one for each task already taken, one for each
worker. -/
def work {α : Type} (s : Pool α) (ws : List (Worker α)) : Nat :=
  2 * s.taskQueue.length + (held ws).length + ws.length

/-- The block `{ lock; stop = true; }` that opens both the destructor and
`setThreadCount`. -/
def signalStop {α : Type} (s : Pool α) : Pool α :=
  { s with stop := true }

/-- The destructor `~DynamicThreadPool` under the interleaving `sched`: set
`stop`, wake and join the workers.  The `threads.size()` workers are taken at
the head of their loop: a task that a worker has already taken is not in
`taskQueue` any more. -/
def teardown {α : Type} (sched : List Nat) (s : Pool α) : Call (Pool α × Trace α) :=
  joinThreads (2 * s.taskQueue.length + s.threads) sched (signalStop s) Trace.empty
    (List.replicate s.threads .idle)

/-- `DynamicThreadPool::setThreadCount` under the interleaving `sched` of the
old workers: set `stop`, join the workers, clear `threads`, reset `stop` and
start `count` workers. -/
def setThreadCount {α : Type} (sched : List Nat) (s : Pool α) (count : Nat) :
    Call (Pool α × Trace α) :=
  match joinThreads (2 * s.taskQueue.length + s.threads) sched (signalStop s) Trace.empty
      (List.replicate s.threads .idle) with
  | .returned (s1, tr) => .returned ({ s1 with threads := count, stop := false }, tr)
  | .blocked => .blocked
  | .terminated => .terminated
  | .outOfFuel => .outOfFuel

/-- The members as the initialiser list of the constructor leaves them, before
its body runs. -/
def initial (α : Type) : Pool α :=
  { threads := 0, taskQueue := [], stop := false,
    maxQueueSize := 0, taskThreshold := 0, scalingFactor := 0 }

/-- The constructor `DynamicThreadPool(threadCount)`.  There is no worker yet
for its `setThreadCount` to join, so there is nothing to interleave. -/
def construct (α : Type) (threadCount : Nat) : Call (Pool α × Trace α) :=
  setThreadCount [] (initial α) threadCount

/-- The operations that move a pool from one state to the next. -/
inductive Op (α : Type) where
  | addTask (t : Task α)
  | setMaxQueueSize (maxSize : Nat)
  | setTaskThresholdAndScaling (threshold scalingFactor : Nat)
  | setThreadCount (count : Nat)
  /-- One of the threads of the worker set runs one iteration of its loop. -/
  | worker
  | teardown

/-- The state of a call that returned, if it did. -/
def Call.state? {α : Type} : Call (Pool α × Trace α) → Option (Pool α)
  | .returned (s, _) => some s
  | _ => none

/-- The step function of the pool: the state after `op` is complete, or `none`
when `op` does not complete in `s` (the caller or worker stays suspended, there
is no worker, or the process is terminated).  The pool that `setThreadCount`
and the destructor leave is the same under every interleaving of the workers
(`setThreadCount_state_schedule`, `teardown_state_schedule`), so one is
taken. -/
def step {α : Type} (hw : Nat) (s : Pool α) : Op α → Option (Pool α)
  | .addTask t =>
    match addTask hw s t with
    | .returned s1 => some s1
    | _ => none
  | .setMaxQueueSize maxSize => some (setMaxQueueSize s maxSize)
  | .setTaskThresholdAndScaling threshold scalingFactor =>
    some (setTaskThresholdAndScaling s threshold scalingFactor)
  | .setThreadCount count => (setThreadCount [] s count).state?
  | .worker =>
    if 0 < s.threads then
      match workerIter s with
      | .ran s1 _ _ => some s1
      | .exited => some s
      | _ => none
    else none
  | .teardown => (teardown [] s).state?

/-- Apply a sequence of operations, as long as each one is allowed by `guard`
in the state it is applied to and completes. -/
def runWith {α : Type} (guard : Pool α → Op α → Bool) (hw : Nat) :
    Pool α → List (Op α) → Option (Pool α)
  | s, [] => some s
  | s, op :: ops =>
    if guard s op then
      match step hw s op with
      | some s1 => runWith guard hw s1 ops
      | none => none
    else none

/-- Apply a sequence of operations. -/
def run {α : Type} (hw : Nat) (s : Pool α) (ops : List (Op α)) : Option (Pool α) :=
  runWith (fun _ _ => true) hw s ops

/-- The states a pool built by `construct threadCount` can be in. -/
def Reachable {α : Type} (hw threadCount : Nat) (s : Pool α) : Prop :=
  ∃ s0 ops, (construct α threadCount).state? = some s0 ∧ run hw s0 ops = some s

/-- Submit the tasks of a list one after the other with `addTask`. -/
def addTasks {α : Type} (hw : Nat) : Pool α → List (Task α) → Call (Pool α)
  | s, [] => .returned s
  | s, t :: ts =>
    match addTask hw s t with
    | .returned s1 => addTasks hw s1 ts
    | .blocked => .blocked
    | .terminated => .terminated
    | .outOfFuel => .outOfFuel

/-- Let the locked block of the worker loop run `n` times (by whichever
workers), collecting the tasks taken; stops early when a worker takes nothing. -/
def dequeueN {α : Type} : Nat → Pool α → List (Task α) × Pool α
  | 0, s => ([], s)
  | n + 1, s =>
    match dequeue s with
    | .took t s1 => (t :: (dequeueN n s1).1, (dequeueN n s1).2)
    | _ => ([], s)

/-- The restriction on callers under which the capacity bound is kept:
`setMaxQueueSize` is called with `0` or with a bound the queue already fits in. -/
def capacityGuard {α : Type} (s : Pool α) : Op α → Bool
  | .setMaxQueueSize maxSize => maxSize == 0 || decide (s.taskQueue.length ≤ maxSize)
  | _ => true

/-- The restriction on callers under which the ceiling is kept:
`setThreadCount` is called with a count of at most `hw / 2`. -/
def ceilingGuard {α : Type} (hw : Nat) (_s : Pool α) : Op α → Bool
  | .setThreadCount count => decide (count ≤ hw / 2)
  | _ => true

/-! ## Concrete pools and tasks -/

/-- A task whose action returns. -/
def okTask (name : String) : Task Unit := ⟨name, fun _ => .returned, ()⟩

/-- A task whose action throws a `std::exception` with message `what`. -/
def failingTask (name what : String) : Task Unit := ⟨name, fun _ => .threw what, ()⟩

/-- A task whose action throws something that is not a `std::exception`. -/
def foreignTask (name : String) : Task Unit := ⟨name, fun _ => .foreign, ()⟩

/-- The pool of `main.cpp` once it is configured: three workers, capacity 10,
threshold 5 and factor 2. -/
def mainPool : Pool Unit :=
  { threads := 3, taskQueue := [], stop := false,
    maxQueueSize := 10, taskThreshold := 5, scalingFactor := 2 }

/-- A pool with one worker, no capacity bound and two tasks waiting. -/
def busyPool : Pool Unit :=
  { threads := 1, taskQueue := [okTask "a", okTask "b"], stop := false,
    maxQueueSize := 0, taskThreshold := 0, scalingFactor := 0 }

/-- A pool with two workers and four tasks waiting. -/
def pairPool : Pool Unit :=
  { threads := 2, taskQueue := [okTask "a", okTask "b", okTask "c", okTask "d"],
    stop := false, maxQueueSize := 0, taskThreshold := 0, scalingFactor := 0 }

/-- A pool with one worker whose first queued task throws past the `catch`. -/
def doomedPool : Pool Unit :=
  { threads := 1, taskQueue := [foreignTask "x", okTask "b"], stop := false,
    maxQueueSize := 0, taskThreshold := 0, scalingFactor := 0 }

/-- A pool with one worker whose first queued task throws a `std::exception`. -/
def faultyPool : Pool Unit :=
  { threads := 1, taskQueue := [failingTask "f" "boom", okTask "b"], stop := false,
    maxQueueSize := 0, taskThreshold := 0, scalingFactor := 0 }

/-- A pool configured by `setTaskThresholdAndScaling(1, 2^64 - 1)` with one task
waiting. -/
def wrapPool : Pool Unit :=
  { threads := 1, taskQueue := [okTask "a"], stop := false,
    maxQueueSize := 0, taskThreshold := 1, scalingFactor := 2 ^ 64 - 1 }

/-! ## The worker loop and `join` -/

section Lemmas

variable {α : Type}

/-- With `stop` set, a worker whose queued tasks all return or throw a
`std::exception` leaves its loop after one iteration per task plus one. -/
theorem workerThread_returns (fuel : Nat) :
    ∀ (s : Pool α) (tr : Trace α), s.stop = true →
      (∀ t ∈ s.taskQueue, t.func t.arg ≠ .foreign) →
      s.taskQueue.length < fuel →
      ∃ lg, workerThread fuel s tr =
        .returned ({ s with taskQueue := [] }, ⟨tr.executed ++ s.taskQueue, lg⟩) := by
  induction fuel with
  | zero => intro s tr _ _ h; omega
  | succ fuel ih =>
    intro s tr hs hf hlen
    rcases hq : s.taskQueue with _ | ⟨t, rest⟩
    · refine ⟨tr.log, ?_⟩
      simp [workerThread, workerIter, dequeue, hq, hs]
      apply Pool.ext <;> simp [hq, hs]
    · have hrest : ∀ u ∈ rest, u.func u.arg ≠ .foreign := fun u hu =>
        hf u (by simp [hq, hu])
      have hl : rest.length < fuel := by simp [hq] at hlen; omega
      have ht : t.func t.arg ≠ .foreign := hf t (by simp [hq])
      cases hout : t.func t.arg with
      | returned =>
        obtain ⟨lg, hlg⟩ := ih { s with taskQueue := rest }
          ⟨tr.executed ++ [t], tr.log ++ (none : Option String).toList⟩ hs hrest hl
        refine ⟨lg, ?_⟩
        simp [workerThread, workerIter, dequeue, hq, hout]
        simpa using hlg
      | threw what =>
        obtain ⟨lg, hlg⟩ := ih { s with taskQueue := rest }
          ⟨tr.executed ++ [t],
            tr.log ++ (some ("Task " ++ t.name ++ " failed: " ++ what)).toList⟩ hs hrest hl
        refine ⟨lg, ?_⟩
        simp [workerThread, workerIter, dequeue, hq, hout]
        simpa using hlg
      | foreign => exact absurd hout ht

/-- The worker loop never needs more iterations than queued tasks plus one. -/
theorem workerThread_fuel (fuel : Nat) :
    ∀ (s : Pool α) (tr : Trace α), s.taskQueue.length < fuel →
      workerThread fuel s tr ≠ .outOfFuel := by
  induction fuel with
  | zero => intro s tr h; omega
  | succ fuel ih =>
    intro s tr hlen
    rcases hq : s.taskQueue with _ | ⟨t, rest⟩
    · cases hs : s.stop <;> simp [workerThread, workerIter, dequeue, hq, hs]
    · have hl : rest.length < fuel := by simp [hq] at hlen; omega
      cases hout : t.func t.arg with
      | returned =>
        simp [workerThread, workerIter, dequeue, hq, hout]
        exact ih { s with taskQueue := rest } _ hl
      | threw what =>
        simp [workerThread, workerIter, dequeue, hq, hout]
        exact ih { s with taskQueue := rest } _ hl
      | foreign => simp [workerThread, workerIter, dequeue, hq, hout]

/-- With `stop` set and enough iterations, the worker loop either returns or
ends in `std::terminate`: it does not stay suspended. -/
theorem workerThread_stop_cases (fuel : Nat) :
    ∀ (s : Pool α) (tr : Trace α), s.stop = true → s.taskQueue.length < fuel →
      workerThread fuel s tr = .terminated ∨
        ∃ s1 tr1, workerThread fuel s tr = .returned (s1, tr1) := by
  induction fuel with
  | zero => intro s tr _ h; omega
  | succ fuel ih =>
    intro s tr hs hlen
    rcases hq : s.taskQueue with _ | ⟨t, rest⟩
    · right
      exact ⟨s, tr, by simp [workerThread, workerIter, dequeue, hq, hs]⟩
    · have hl : rest.length < fuel := by simp [hq] at hlen; omega
      cases hout : t.func t.arg with
      | returned =>
        simp only [workerThread, workerIter, dequeue, hq, hout]
        exact ih { s with taskQueue := rest } _ hs hl
      | threw what =>
        simp only [workerThread, workerIter, dequeue, hq, hout]
        exact ih { s with taskQueue := rest } _ hs hl
      | foreign =>
        left
        simp [workerThread, workerIter, dequeue, hq, hout]

/-! ## Joining the workers under an interleaving -/

theorem held_perm {ws ws1 : List (Worker α)} (h : ws.Perm ws1) :
    (held ws).Perm (held ws1) := by
  induction h with
  | nil => exact List.Perm.refl _
  | cons w _ ih =>
    cases w with
    | idle => simpa [held] using ih
    | holding t => simpa [held] using ih
  | swap w1 w2 l =>
    cases w1 <;> cases w2 <;> simp [held, List.Perm.swap]
  | trans _ _ ih1 ih2 => exact ih1.trans ih2

theorem joinThreads_nil (fuel : Nat) (sched : List Nat) (s : Pool α) (tr : Trace α) :
    joinThreads fuel sched s tr [] = .returned (s, tr) := by
  cases fuel <;> simp [joinThreads]

/-- What `join` leaves when it returns, under any interleaving: with no worker
nothing has changed; otherwise `stop` was set, the queue is empty, and the
actions called are, each exactly once, those of the tasks that were queued or
already taken, every one of which returned or threw a `std::exception`. -/
theorem joinThreads_returned (fuel : Nat) :
    ∀ (sched : List Nat) (s s1 : Pool α) (tr tr1 : Trace α) (ws : List (Worker α)),
      joinThreads fuel sched s tr ws = .returned (s1, tr1) →
      (ws = [] ∧ s1 = s ∧ tr1 = tr) ∨
        (ws ≠ [] ∧ s.stop = true ∧ s1 = { s with taskQueue := [] } ∧
          (↑tr1.executed : Multiset (Task α)) =
            ↑tr.executed + (↑(held ws) + ↑s.taskQueue) ∧
          ∀ t, t ∈ held ws ∨ t ∈ s.taskQueue → (t.func t.arg).handled = true) := by
  induction fuel with
  | zero =>
    intro sched s s1 tr tr1 ws h
    cases ws with
    | nil =>
      simp only [joinThreads, Call.returned.injEq, Prod.mk.injEq] at h
      exact Or.inl ⟨rfl, h.1.symm, h.2.symm⟩
    | cons w ws => simp [joinThreads] at h
  | succ fuel ih =>
    intro sched s s1 tr tr1 ws h
    simp only [joinThreads] at h
    cases hrot : ws.rotate (sched.headD 0) with
    | nil =>
      rw [hrot] at h
      simp only [Call.returned.injEq, Prod.mk.injEq] at h
      exact Or.inl ⟨List.rotate_eq_nil_iff.mp hrot, h.1.symm, h.2.symm⟩
    | cons w others =>
      rw [hrot] at h
      simp only at h
      have hp : ws.Perm (w :: others) := by
        rw [← hrot]; exact (List.rotate_perm ws _).symm
      have hne : ws ≠ [] := fun e => by rw [e] at hrot; simp at hrot
      have hheld := held_perm hp
      have hM : (↑(held ws) : Multiset (Task α)) = ↑(held (w :: others)) :=
        Multiset.coe_eq_coe.mpr hheld
      have hmem : ∀ t, t ∈ held ws ↔ t ∈ held (w :: others) := fun t => hheld.mem_iff
      right
      cases w with
      | idle =>
        simp only [held] at hM hmem
        rcases hq : s.taskQueue with _ | ⟨t, rest⟩
        · rcases Bool.eq_false_or_eq_true s.stop with hs | hs
          · simp only [move, dequeue, hq, hs, if_true] at h
            have hs1 : { s with taskQueue := [] } = s := by
              apply Pool.ext <;> simp [hq]
            rcases ih _ _ _ _ _ _ h with ⟨ho, h1, h2⟩ | ⟨_, _, h1, h2, h3⟩
            · subst ho
              refine ⟨hne, hs, by rw [h1, hs1], ?_, ?_⟩
              · rw [hM, h2]; simp [held]
              · intro u hu
                rcases hu with hu | hu
                · rw [hmem] at hu; simp [held] at hu
                · simp at hu
            · refine ⟨hne, hs, h1, ?_, ?_⟩
              · rw [hM, h2, hq]
              · intro u hu
                rcases hu with hu | hu
                · exact h3 u (Or.inl ((hmem u).mp hu))
                · simp at hu
          · simp [move, dequeue, hq, hs] at h
        · simp only [move, dequeue, hq] at h
          rcases ih _ _ _ _ _ _ h with ⟨ho, _⟩ | ⟨_, hs, h1, h2, h3⟩
          · simp at ho
          · refine ⟨hne, hs, by simpa using h1, ?_, ?_⟩
            · rw [hM, h2]
              simp only [held, ← Multiset.cons_coe, Multiset.cons_add, Multiset.add_cons]
            · intro u hu
              rcases hu with hu | hu
              · exact h3 u (Or.inl (by
                  simp only [held, List.mem_cons]
                  exact Or.inr ((hmem u).mp hu)))
              · simp only [List.mem_cons] at hu
                rcases hu with hu | hu
                · exact h3 u (Or.inl (by simp [held, hu]))
                · exact h3 u (Or.inr hu)
      | holding t =>
        simp only [held] at hM hmem
        cases hout : t.func t.arg with
        | returned =>
          simp only [move, hout] at h
          rcases ih _ _ _ _ _ _ h with ⟨ho, _⟩ | ⟨_, hs, h1, h2, h3⟩
          · simp at ho
          · refine ⟨hne, hs, h1, ?_, ?_⟩
            · rw [hM, h2]
              simp only [held, Multiset.coe_add, List.append_assoc, List.singleton_append,
                List.cons_append, List.nil_append]
            · intro u hu
              rcases hu with hu | hu
              · rw [hmem] at hu
                simp only [List.mem_cons] at hu
                rcases hu with hu | hu
                · rw [hu, hout]; rfl
                · exact h3 u (Or.inl (by simpa [held] using hu))
              · exact h3 u (Or.inr hu)
        | threw what =>
          simp only [move, hout] at h
          rcases ih _ _ _ _ _ _ h with ⟨ho, _⟩ | ⟨_, hs, h1, h2, h3⟩
          · simp at ho
          · refine ⟨hne, hs, h1, ?_, ?_⟩
            · rw [hM, h2]
              simp only [held, Multiset.coe_add, List.append_assoc, List.singleton_append,
                List.cons_append, List.nil_append]
            · intro u hu
              rcases hu with hu | hu
              · rw [hmem] at hu
                simp only [List.mem_cons] at hu
                rcases hu with hu | hu
                · rw [hu, hout]; rfl
                · exact h3 u (Or.inl (by simpa [held] using hu))
              · exact h3 u (Or.inr hu)
        | foreign => simp [move, hout] at h

/-- With `stop` set and a turn for every piece of work, `join` either returns
or the process is terminated by a task that throws past the `catch`, whatever
the interleaving: no worker stays suspended and the bound is never reached. -/
theorem joinThreads_stop_cases (fuel : Nat) :
    ∀ (sched : List Nat) (s : Pool α) (tr : Trace α) (ws : List (Worker α)),
      s.stop = true → work s ws ≤ fuel →
      (∃ s1 tr1, joinThreads fuel sched s tr ws = .returned (s1, tr1)) ∨
        (joinThreads fuel sched s tr ws = .terminated ∧
          ∃ t, (t ∈ held ws ∨ t ∈ s.taskQueue) ∧ (t.func t.arg).handled = false) := by
  induction fuel with
  | zero =>
    intro sched s tr ws _ hw
    have : ws = [] := by
      apply List.eq_nil_of_length_eq_zero
      unfold work at hw
      omega
    subst this
    exact Or.inl ⟨s, tr, joinThreads_nil _ _ _ _⟩
  | succ fuel ih =>
    intro sched s tr ws hs hw
    cases hrot : ws.rotate (sched.headD 0) with
    | nil =>
      have : ws = [] := List.rotate_eq_nil_iff.mp hrot
      subst this
      exact Or.inl ⟨s, tr, joinThreads_nil _ _ _ _⟩
    | cons w others =>
      have hp : ws.Perm (w :: others) := by
        rw [← hrot]; exact (List.rotate_perm ws _).symm
      have hheld := held_perm hp
      have hlen : ws.length = others.length + 1 := by simpa using hp.length_eq
      have hhl : (held ws).length = (held (w :: others)).length := hheld.length_eq
      have hmem : ∀ t, t ∈ held ws ↔ t ∈ held (w :: others) := fun t => hheld.mem_iff
      unfold work at hw
      cases w with
      | idle =>
        simp only [held] at hhl hmem
        rcases hq : s.taskQueue with _ | ⟨t, rest⟩
        · have e : joinThreads (fuel + 1) sched s tr ws =
              joinThreads fuel sched.tail s tr others := by
            simp only [joinThreads, hrot, move, dequeue, hq, hs, if_true]
          rw [e]
          have hw1 : work s others ≤ fuel := by
            unfold work
            omega
          rcases ih sched.tail s tr others hs hw1 with hret | ⟨hterm, u, hu, hbad⟩
          · exact Or.inl hret
          · refine Or.inr ⟨hterm, u, ?_, hbad⟩
            rcases hu with hu | hu
            · exact Or.inl ((hmem u).mpr hu)
            · rw [hq] at hu; simp at hu
        · have e : joinThreads (fuel + 1) sched s tr ws =
              joinThreads fuel sched.tail { s with taskQueue := rest } tr
                (.holding t :: others) := by
            simp only [joinThreads, hrot, move, dequeue, hq]
          rw [e]
          have hw1 : work { s with taskQueue := rest } (.holding t :: others) ≤ fuel := by
            simp only [work, held, List.length_cons]
            rw [hq] at hw
            simp only [List.length_cons] at hw
            omega
          rcases ih sched.tail { s with taskQueue := rest } tr (.holding t :: others) hs hw1 with
            hret | ⟨hterm, u, hu, hbad⟩
          · exact Or.inl hret
          · refine Or.inr ⟨hterm, u, ?_, hbad⟩
            simp only [held, List.mem_cons] at hu
            rcases hu with (hu | hu) | hu
            · exact Or.inr (by simp [hu])
            · exact Or.inl ((hmem u).mpr hu)
            · exact Or.inr (by simp [hu])
      | holding t =>
        simp only [held, List.length_cons] at hhl
        simp only [held] at hmem
        have hw1 : ∀ tr1 : Trace α, work s (.idle :: others) ≤ fuel := by
          intro _
          simp only [work, held, List.length_cons]
          omega
        have hback : ∀ u, (u ∈ held (Worker.idle :: others) ∨ u ∈ s.taskQueue) →
            (u ∈ held ws ∨ u ∈ s.taskQueue) := by
          intro u hu
          simp only [held] at hu
          rcases hu with hu | hu
          · exact Or.inl ((hmem u).mpr (List.mem_cons_of_mem _ hu))
          · exact Or.inr hu
        cases hout : t.func t.arg with
        | returned =>
          have e : joinThreads (fuel + 1) sched s tr ws =
              joinThreads fuel sched.tail s ⟨tr.executed ++ [t], tr.log⟩ (.idle :: others) := by
            simp only [joinThreads, hrot, move, hout]
          rw [e]
          rcases ih sched.tail s ⟨tr.executed ++ [t], tr.log⟩ (.idle :: others) hs (hw1 tr) with
            hret | ⟨hterm, u, hu, hbad⟩
          · exact Or.inl hret
          · exact Or.inr ⟨hterm, u, hback u hu, hbad⟩
        | threw what =>
          have e : joinThreads (fuel + 1) sched s tr ws =
              joinThreads fuel sched.tail s
                ⟨tr.executed ++ [t], tr.log ++ ["Task " ++ t.name ++ " failed: " ++ what]⟩
                (.idle :: others) := by
            simp only [joinThreads, hrot, move, hout]
          rw [e]
          rcases ih sched.tail s
              ⟨tr.executed ++ [t], tr.log ++ ["Task " ++ t.name ++ " failed: " ++ what]⟩
              (.idle :: others) hs (hw1 tr) with
            hret | ⟨hterm, u, hu, hbad⟩
          · exact Or.inl hret
          · exact Or.inr ⟨hterm, u, hback u hu, hbad⟩
        | foreign =>
          refine Or.inr ⟨by simp only [joinThreads, hrot, move, hout], t, ?_, by rw [hout]; rfl⟩
          exact Or.inl ((hmem t).mpr (List.mem_cons_self _ _))

/-- With `stop` set, if every task that is queued or already taken returns or
throws a `std::exception`, `join` returns under every interleaving. -/
theorem joinThreads_returns (fuel : Nat) (sched : List Nat) (s : Pool α) (tr : Trace α)
    (ws : List (Worker α)) (hs : s.stop = true)
    (hf : ∀ t, t ∈ held ws ∨ t ∈ s.taskQueue → (t.func t.arg).handled = true)
    (hw : work s ws ≤ fuel) :
    ∃ s1 tr1, joinThreads fuel sched s tr ws = .returned (s1, tr1) := by
  rcases joinThreads_stop_cases fuel sched s tr ws hs hw with hret | ⟨_, u, hu, hbad⟩
  · exact hret
  · rw [hf u hu] at hbad
    cases hbad

/-- The members other than the queue are untouched by `join`, and the queue
does not grow. -/
theorem joinThreads_frame (fuel : Nat) (sched : List Nat) (s s1 : Pool α) (tr tr1 : Trace α)
    (ws : List (Worker α)) (h : joinThreads fuel sched s tr ws = .returned (s1, tr1)) :
    s1.threads = s.threads ∧ s1.stop = s.stop ∧ s1.maxQueueSize = s.maxQueueSize ∧
      s1.taskThreshold = s.taskThreshold ∧ s1.scalingFactor = s.scalingFactor ∧
      s1.taskQueue.length ≤ s.taskQueue.length := by
  rcases joinThreads_returned fuel sched s s1 tr tr1 ws h with ⟨_, h1, _⟩ | ⟨_, _, h1, _⟩
  · subst h1; simp
  · subst h1; simp

/-- The pool that `join` leaves does not depend on the interleaving. -/
theorem joinThreads_state_schedule (fuel : Nat) (sched sched1 : List Nat) (s : Pool α)
    (tr : Trace α) (ws : List (Worker α)) (hs : s.stop = true) (hw : work s ws ≤ fuel) :
    (joinThreads fuel sched s tr ws).state? = (joinThreads fuel sched1 s tr ws).state? := by
  rcases joinThreads_stop_cases fuel sched s tr ws hs hw with
    ⟨s1, tr1, h1⟩ | ⟨hterm, u, hu, hbad⟩
  · rcases joinThreads_returned fuel sched s s1 tr tr1 ws h1 with
      ⟨hnil, e1, _⟩ | ⟨hne, _, e1, _, hall⟩
    · subst hnil
      rw [joinThreads_nil, joinThreads_nil]
    · obtain ⟨s2, tr2, h2⟩ := joinThreads_returns fuel sched1 s tr ws hs hall hw
      rcases joinThreads_returned fuel sched1 s s2 tr tr2 ws h2 with
        ⟨hnil, _⟩ | ⟨_, _, e2, _⟩
      · exact absurd hnil hne
      · rw [h1, h2, e1, e2]
        rfl
  · rcases joinThreads_stop_cases fuel sched1 s tr ws hs hw with
      ⟨s2, tr2, h2⟩ | ⟨hterm2, _⟩
    · rcases joinThreads_returned fuel sched1 s s2 tr tr2 ws h2 with
        ⟨hnil, _⟩ | ⟨_, _, _, _, hall⟩
      · subst hnil
        simp [held] at hu
        rw [joinThreads_nil, joinThreads_nil]
      · rw [hall u hu] at hbad
        cases hbad
    · rw [hterm, hterm2]

/-- With a single worker there is nothing to interleave. -/
theorem joinThreads_single (fuel : Nat) :
    ∀ (sched : List Nat) (s : Pool α) (tr : Trace α) (w : Worker α),
      joinThreads fuel sched s tr [w] = joinThreads fuel [] s tr [w] := by
  induction fuel with
  | zero => intro sched s tr w; simp [joinThreads]
  | succ fuel ih =>
    intro sched s tr w
    simp only [joinThreads, List.rotate_singleton, List.tail_nil]
    cases move s tr w with
    | went s1 tr1 w1 => exact ih sched.tail s1 tr1 w1
    | exited => rw [joinThreads_nil, joinThreads_nil]
    | suspended => rfl
    | terminated => rfl

end Lemmas

/-! ## Submission -/

section Submission

variable {α : Type}

/-- What `addTask` does to a pool that is not stopping, when it returns. -/
theorem addTask_running (hw : Nat) (s s1 : Pool α) (t : Task α) (hs : s.stop = false)
    (h : addTask hw s t = .returned s1) :
    (s.maxQueueSize = 0 ∨ s.taskQueue.length < s.maxQueueSize) ∧
      s1.taskQueue = s.taskQueue ++ [t] ∧ s1.stop = false ∧
      s1.maxQueueSize = s.maxQueueSize ∧ s1.scalingFactor = s.scalingFactor ∧
      ((s1.threads = s.threads ∧ s1.taskThreshold = s.taskThreshold) ∨
        (0 < s.taskThreshold ∧ 0 < s.scalingFactor ∧
          s.taskThreshold < s.taskQueue.length + 1 ∧
          s1.threads = s.threads + min s.scalingFactor (hw / 2 - s.threads) ∧
          s1.taskThreshold = (s.taskThreshold + s.scalingFactor) % sizeMod)) := by
  unfold addTask at h
  simp only [hs, Bool.false_or, Bool.or_eq_true, beq_iff_eq, decide_eq_true_eq,
    Bool.false_eq_true, if_false] at h
  split_ifs at h with hadm htrig hlt
  · simp only [Call.returned.injEq] at h
    subst h
    refine ⟨hadm, rfl, rfl, rfl, rfl, Or.inr ⟨htrig.1, htrig.2.1, ?_, ?_, rfl⟩⟩
    · simpa using htrig.2.2
    · rfl
  · simp only [Call.returned.injEq] at h
    subst h
    refine ⟨hadm, rfl, rfl, rfl, rfl, Or.inr ⟨htrig.1, htrig.2.1, ?_, ?_, rfl⟩⟩
    · simpa using htrig.2.2
    · have : hw / 2 - s.threads = 0 := by omega
      simp [this]
  · simp only [Call.returned.injEq] at h
    subst h
    exact ⟨hadm, rfl, rfl, rfl, rfl, Or.inl ⟨rfl, rfl⟩⟩

theorem addTask_stopped (hw : Nat) (s : Pool α) (t : Task α) (h : s.stop = true) :
    addTask hw s t = .returned s := by
  simp [addTask, h]

theorem addTasks_queue (hw : Nat) (ts : List (Task α)) :
    ∀ (s s1 : Pool α), s.stop = false → addTasks hw s ts = .returned s1 →
      s1.taskQueue = s.taskQueue ++ ts := by
  induction ts with
  | nil =>
    intro s s1 _ h
    simp [addTasks] at h
    simp [h]
  | cons t ts ih =>
    intro s s1 hs h
    simp only [addTasks] at h
    cases ha : addTask hw s t with
    | returned s2 =>
      rw [ha] at h
      obtain ⟨_, hq, hs2, _⟩ := addTask_running hw s s2 t hs ha
      have := ih s2 s1 hs2 h
      rw [this, hq]
      simp
    | blocked => rw [ha] at h; simp at h
    | terminated => rw [ha] at h; simp at h
    | outOfFuel => rw [ha] at h; simp at h

theorem dequeueN_spec (k : Nat) :
    ∀ (s : Pool α), (dequeueN k s).1 = s.taskQueue.take k ∧
      (dequeueN k s).2 = { s with taskQueue := s.taskQueue.drop k } := by
  induction k with
  | zero => intro s; simp [dequeueN]
  | succ k ih =>
    intro s
    rcases hq : s.taskQueue with _ | ⟨t, rest⟩
    · simp only [dequeueN, dequeue, hq]
      cases hs : s.stop <;> simp <;> (apply Pool.ext <;> simp [hq, hs])
    · simp only [dequeueN, dequeue, hq]
      obtain ⟨h1, h2⟩ := ih { s with taskQueue := rest }
      simp [h1, h2]

end Submission

/-! ## The effect of one step -/

section Steps

variable {α : Type}

theorem setThreadCount_frame (sched : List Nat) (s s1 : Pool α) (count : Nat) (tr : Trace α)
    (h : setThreadCount sched s count = .returned (s1, tr)) :
    s1.threads = count ∧ s1.stop = false ∧ s1.maxQueueSize = s.maxQueueSize ∧
      s1.taskThreshold = s.taskThreshold ∧ s1.scalingFactor = s.scalingFactor ∧
      s1.taskQueue.length ≤ s.taskQueue.length := by
  unfold setThreadCount at h
  cases hj : joinThreads (2 * s.taskQueue.length + s.threads) sched (signalStop s) Trace.empty
      (List.replicate s.threads .idle) with
  | returned v =>
    obtain ⟨s2, tr2⟩ := v
    rw [hj] at h
    simp only [Call.returned.injEq, Prod.mk.injEq] at h
    obtain ⟨h1, _⟩ := h
    obtain ⟨_, _, f3, f4, f5, f6⟩ := joinThreads_frame _ _ _ _ _ _ _ hj
    subst h1
    exact ⟨rfl, rfl, f3, f4, f5, f6⟩
  | blocked => rw [hj] at h; simp at h
  | terminated => rw [hj] at h; simp at h
  | outOfFuel => rw [hj] at h; simp at h

theorem teardown_frame (sched : List Nat) (s s1 : Pool α) (tr : Trace α)
    (h : teardown sched s = .returned (s1, tr)) :
    s1.threads = s.threads ∧ s1.stop = true ∧ s1.maxQueueSize = s.maxQueueSize ∧
      s1.taskThreshold = s.taskThreshold ∧ s1.scalingFactor = s.scalingFactor ∧
      s1.taskQueue.length ≤ s.taskQueue.length :=
  joinThreads_frame _ _ _ _ _ _ _ h

theorem held_replicate_idle (n : Nat) : held (List.replicate n (Worker.idle : Worker α)) = [] := by
  induction n with
  | zero => rfl
  | succ n ih => simpa [List.replicate, held] using ih

theorem work_signalStop (s : Pool α) :
    work (signalStop s) (List.replicate s.threads .idle) =
      2 * s.taskQueue.length + s.threads := by
  simp [work, signalStop, held_replicate_idle]

/-- The pool the destructor leaves does not depend on the interleaving of the
workers. -/
theorem teardown_state_schedule (sched sched1 : List Nat) (s : Pool α) :
    (teardown sched s).state? = (teardown sched1 s).state? :=
  joinThreads_state_schedule _ sched sched1 (signalStop s) Trace.empty _ rfl
    (le_of_eq (work_signalStop s))

/-- The pool `setThreadCount` leaves does not depend on the interleaving of the
old workers. -/
theorem setThreadCount_state_schedule (sched sched1 : List Nat) (s : Pool α) (count : Nat) :
    (setThreadCount sched s count).state? = (setThreadCount sched1 s count).state? := by
  have h := joinThreads_state_schedule (2 * s.taskQueue.length + s.threads) sched sched1
    (signalStop s) Trace.empty (List.replicate s.threads .idle) rfl
    (le_of_eq (work_signalStop s))
  unfold setThreadCount
  cases h1 : joinThreads (2 * s.taskQueue.length + s.threads) sched (signalStop s) Trace.empty
      (List.replicate s.threads .idle) <;>
    cases h2 : joinThreads (2 * s.taskQueue.length + s.threads) sched1 (signalStop s)
      Trace.empty (List.replicate s.threads .idle) <;>
    rw [h1, h2] at h <;> simp_all [Call.state?]

theorem state?_some (c : Call (Pool α × Trace α)) (s1 : Pool α) (h : c.state? = some s1) :
    ∃ tr, c = .returned (s1, tr) := by
  cases c with
  | returned v =>
    obtain ⟨s2, tr⟩ := v
    simp only [Call.state?, Option.some.injEq] at h
    exact ⟨tr, by rw [h]⟩
  | blocked => simp [Call.state?] at h
  | terminated => simp [Call.state?] at h
  | outOfFuel => simp [Call.state?] at h

theorem workerIter_ran (s s1 : Pool α) (t : Task α) (line : Option String)
    (h : workerIter s = .ran s1 t line) :
    s.taskQueue = t :: s1.taskQueue ∧ s1 = { s with taskQueue := s1.taskQueue } := by
  rcases hq : s.taskQueue with _ | ⟨u, rest⟩
  · cases hs : s.stop <;> simp [workerIter, dequeue, hq, hs] at h
  · cases hout : u.func u.arg with
    | returned =>
      simp [workerIter, dequeue, hq, hout] at h
      obtain ⟨h1, h2, _⟩ := h
      subst h1 h2
      exact ⟨rfl, rfl⟩
    | threw what =>
      simp [workerIter, dequeue, hq, hout] at h
      obtain ⟨h1, h2, _⟩ := h
      subst h1 h2
      exact ⟨rfl, rfl⟩
    | foreign => simp [workerIter, dequeue, hq, hout] at h

/-- How one completed step changes each member of the pool. -/
theorem step_effect (hw : Nat) (s s1 : Pool α) (op : Op α) (h : step hw s op = some s1) :
    (s1.stop = s.stop ∨ ((∃ c, op = .setThreadCount c) ∧ s1.stop = false) ∨
        (op = .teardown ∧ s1.stop = true)) ∧
      (s1.maxQueueSize = s.maxQueueSize ∨ op = .setMaxQueueSize s1.maxQueueSize) ∧
      (s1.taskQueue.length ≤ s.taskQueue.length ∨
        ((s.maxQueueSize = 0 ∨ s.taskQueue.length < s.maxQueueSize) ∧
          s1.taskQueue.length = s.taskQueue.length + 1 ∧
          s1.maxQueueSize = s.maxQueueSize)) ∧
      (s1.threads = s.threads ∨ op = .setThreadCount s1.threads ∨
        s1.threads = s.threads + min s.scalingFactor (hw / 2 - s.threads)) ∧
      (s1.taskThreshold = s.taskThreshold ∨
        (∃ b, op = .setTaskThresholdAndScaling s1.taskThreshold b) ∨
        s1.taskThreshold = (s.taskThreshold + s.scalingFactor) % sizeMod) := by
  cases op with
  | addTask t =>
    simp only [step] at h
    cases ha : addTask hw s t with
    | returned s2 =>
      rw [ha] at h
      simp only [Option.some.injEq] at h
      subst h
      cases hs : s.stop
      · obtain ⟨hadm, hq, hs2, hm, _, hrest⟩ := addTask_running hw s s2 t hs ha
        refine ⟨Or.inl (by rw [hs2]), Or.inl hm, Or.inr ⟨hadm, by simp [hq], hm⟩, ?_, ?_⟩
        · rcases hrest with ⟨h1, _⟩ | ⟨_, _, _, h1, _⟩
          · exact Or.inl h1
          · exact Or.inr (Or.inr h1)
        · rcases hrest with ⟨_, h1⟩ | ⟨_, _, _, _, h1⟩
          · exact Or.inl h1
          · exact Or.inr (Or.inr h1)
      · rw [addTask_stopped hw s t hs] at ha
        simp only [Call.returned.injEq] at ha
        subst ha
        exact ⟨Or.inl hs, Or.inl rfl, Or.inl le_rfl, Or.inl rfl, Or.inl rfl⟩
    | blocked => rw [ha] at h; simp at h
    | terminated => rw [ha] at h; simp at h
    | outOfFuel => rw [ha] at h; simp at h
  | setMaxQueueSize maxSize =>
    simp only [step, Option.some.injEq] at h
    subst h
    exact ⟨Or.inl rfl, Or.inr rfl, Or.inl le_rfl, Or.inl rfl, Or.inl rfl⟩
  | setTaskThresholdAndScaling threshold scalingFactor =>
    simp only [step, Option.some.injEq] at h
    subst h
    exact ⟨Or.inl rfl, Or.inl rfl, Or.inl le_rfl, Or.inl rfl, Or.inr (Or.inl ⟨_, rfl⟩)⟩
  | setThreadCount count =>
    simp only [step] at h
    obtain ⟨tr, htr⟩ := state?_some _ _ h
    obtain ⟨f1, f2, f3, f4, _, f6⟩ := setThreadCount_frame [] s s1 count tr htr
    exact ⟨Or.inr (Or.inl ⟨⟨count, rfl⟩, f2⟩), Or.inl f3, Or.inl f6,
      Or.inr (Or.inl (by rw [f1])), Or.inl f4⟩
  | worker =>
    simp only [step] at h
    split_ifs at h with hpos
    cases hi : workerIter s with
    | waiting => rw [hi] at h; simp at h
    | exited =>
      rw [hi] at h
      simp only [Option.some.injEq] at h
      subst h
      exact ⟨Or.inl rfl, Or.inl rfl, Or.inl le_rfl, Or.inl rfl, Or.inl rfl⟩
    | ran s2 t line =>
      rw [hi] at h
      simp only [Option.some.injEq] at h
      subst h
      obtain ⟨hq, he⟩ := workerIter_ran s s2 t line hi
      rw [he]
      refine ⟨Or.inl rfl, Or.inl rfl, Or.inl ?_, Or.inl rfl, Or.inl rfl⟩
      simp [hq]
    | terminated s2 t => rw [hi] at h; simp at h
  | teardown =>
    simp only [step] at h
    obtain ⟨tr, htr⟩ := state?_some _ _ h
    obtain ⟨f1, f2, f3, f4, _, f6⟩ := teardown_frame [] s s1 tr htr
    exact ⟨Or.inr (Or.inr ⟨rfl, f2⟩), Or.inl f3, Or.inl f6, Or.inl f1, Or.inl f4⟩

/-- The constructor returns, with `threadCount` workers and everything else
as the initialiser list leaves it. -/
theorem construct_state (threadCount : Nat) :
    construct α threadCount =
      .returned ({ initial α with threads := threadCount }, Trace.empty) := by
  rfl

/-- An iteration of the worker loop is two turns of the worker: the locked
block, then the call. -/
theorem workerIter_moves (s s1 : Pool α) (t : Task α) (line : Option String) (tr : Trace α)
    (h : workerIter s = .ran s1 t line) :
    move s tr .idle = .went s1 tr (.holding t) ∧
      move s1 tr (.holding t) =
        .went s1 ⟨tr.executed ++ [t], tr.log ++ line.toList⟩ .idle := by
  rcases hq : s.taskQueue with _ | ⟨u, rest⟩
  · rcases Bool.eq_false_or_eq_true s.stop with hs | hs <;>
      simp [workerIter, dequeue, hq, hs] at h
  · cases hout : u.func u.arg with
    | returned =>
      simp only [workerIter, dequeue, hq, hout, Iter.ran.injEq] at h
      obtain ⟨h1, h2, h3⟩ := h
      subst h1 h2 h3
      simp [move, dequeue, hq, hout]
    | threw what =>
      simp only [workerIter, dequeue, hq, hout, Iter.ran.injEq] at h
      obtain ⟨h1, h2, h3⟩ := h
      subst h1 h2 h3
      simp [move, dequeue, hq, hout]
    | foreign => simp [workerIter, dequeue, hq, hout] at h

/-- With one worker, the destructor and `setThreadCount` do the same under every
interleaving. -/
theorem setThreadCount_single (sched : List Nat) (s : Pool α) (count : Nat)
    (h : s.threads = 1) :
    setThreadCount sched s count = setThreadCount [] s count := by
  unfold setThreadCount
  rw [h]
  simp only [List.replicate]
  rw [joinThreads_single]

/-- With two workers the order of the calls depends on the interleaving: the
worker that took `b` may call it after the other worker has taken and called
`c`. -/
theorem teardown_call_order :
    teardown [] pairPool =
        .returned ({ pairPool with stop := true, taskQueue := [] },
          ⟨[okTask "a", okTask "b", okTask "c", okTask "d"], []⟩) ∧
      teardown [0, 1, 1, 0, 0, 1] pairPool =
        .returned ({ pairPool with stop := true, taskQueue := [] },
          ⟨[okTask "a", okTask "c", okTask "b", okTask "d"], []⟩) :=
  ⟨rfl, rfl⟩

end Steps

/-! ## Runs -/

section Runs

variable {α : Type}

/-- A property kept by every guarded step is kept by every guarded run. -/
theorem runWith_invariant (guard : Pool α → Op α → Bool) (hw : Nat) (P : Pool α → Prop)
    (hstep : ∀ s s1 op, P s → guard s op = true → step hw s op = some s1 → P s1)
    (ops : List (Op α)) :
    ∀ s s1, P s → runWith guard hw s ops = some s1 → P s1 := by
  induction ops with
  | nil =>
    intro s s1 hP h
    simp only [runWith, Option.some.injEq] at h
    exact h ▸ hP
  | cons op ops ih =>
    intro s s1 hP h
    simp only [runWith] at h
    split_ifs at h with hg
    cases hst : step hw s op with
    | none => rw [hst] at h; simp at h
    | some s2 =>
      rw [hst] at h
      exact ih s2 s1 (hstep s s2 op hP hg hst) h

theorem construct_state?_eq (threadCount : Nat) (s0 : Pool α)
    (h : (construct α threadCount).state? = some s0) :
    s0 = { initial α with threads := threadCount } := by
  rw [construct_state] at h
  simp only [Call.state?, Option.some.injEq] at h
  exact h.symm

end Runs

/-! ## Claims about submission -/

section SubmissionClaims

variable {α : Type}

/-- C1 (FIFO order).  From any pool state that is not stopping, when the tasks
`ts` are submitted one after the other by `addTask` and every submission is
admitted (none blocks), the queue is the old queue followed by `ts` in
submission order; the dequeue steps of the workers that follow take the tasks
in exactly that order: `k` steps take the first `k` of them and leave the rest,
and as many steps as there are tasks take them all and leave the queue empty. -/
theorem fifo_order (hw : Nat) (s s1 : Pool α) (ts : List (Task α)) (hs : s.stop = false)
    (h : addTasks hw s ts = .returned s1) :
    s1.taskQueue = s.taskQueue ++ ts ∧
      (dequeueN (s.taskQueue.length + ts.length) s1).1 = s.taskQueue ++ ts ∧
      (dequeueN (s.taskQueue.length + ts.length) s1).2.taskQueue = [] ∧
      ∀ k, (dequeueN k s1).1 = (s.taskQueue ++ ts).take k ∧
        (dequeueN k s1).2.taskQueue = (s.taskQueue ++ ts).drop k := by
  have hq := addTasks_queue hw ts s s1 hs h
  have hk : ∀ k, (dequeueN k s1).1 = (s.taskQueue ++ ts).take k ∧
      (dequeueN k s1).2.taskQueue = (s.taskQueue ++ ts).drop k := by
    intro k
    obtain ⟨h1, h2⟩ := dequeueN_spec k s1
    rw [h1, h2, hq]
    exact ⟨rfl, rfl⟩
  refine ⟨hq, ?_, ?_, hk⟩
  · rw [(hk _).1, ← List.length_append, List.take_length]
  · rw [(hk _).2, ← List.length_append, List.drop_length]

/-- Witness for C1: two admitted submissions to a pool that already holds two
tasks; four dequeue steps take the four tasks in order. -/
theorem fifo_order_witness :
    busyPool.stop = false ∧
      addTasks 8 busyPool [okTask "c", okTask "d"] =
        .returned { busyPool with
          taskQueue := [okTask "a", okTask "b", okTask "c", okTask "d"] } ∧
      (dequeueN 4 { busyPool with
          taskQueue := [okTask "a", okTask "b", okTask "c", okTask "d"] }).1 =
        [okTask "a", okTask "b", okTask "c", okTask "d"] :=
  ⟨rfl, rfl, (fifo_order 8 busyPool _ [okTask "c", okTask "d"] rfl rfl).2.1⟩

/-- C3 (submission after shutdown).  In every pool state whose stop flag is
set, whatever the queue length and the capacity, `addTask` returns and leaves
the pool exactly as it was: queue, worker count, threshold, factor and capacity
are unchanged. -/
theorem addTask_after_stop (hw : Nat) (s : Pool α) (t : Task α) (h : s.stop = true) :
    addTask hw s t = .returned s := by
  unfold addTask
  rw [h]
  rfl

/-- Witness for C3: a full queue in a stopping pool. -/
theorem addTask_after_stop_witness :
    (signalStop (setMaxQueueSize busyPool 2)).stop = true ∧
      addTask 8 (signalStop (setMaxQueueSize busyPool 2)) (okTask "c") =
        .returned (signalStop (setMaxQueueSize busyPool 2)) :=
  ⟨rfl, addTask_after_stop 8 _ _ rfl⟩

/-- C4, as the code has it.  In a pool that is not stopping, with threshold
`T > 0` and factor `F > 0`, an admitted `addTask` whose enqueue makes the queue
longer than `T` returns with the task appended, the worker count increased by
exactly `min(F, max(0, hw / 2 - current))`, and the threshold set to
`(T + F) mod 2^64`, which is `T + F` whenever `T + F` fits in a `size_t`. -/
theorem scaling_trigger (hw : Nat) (s : Pool α) (t : Task α) (hs : s.stop = false)
    (hadm : s.maxQueueSize = 0 ∨ s.taskQueue.length < s.maxQueueSize)
    (hT : 0 < s.taskThreshold) (hF : 0 < s.scalingFactor)
    (hlen : s.taskThreshold < s.taskQueue.length + 1) :
    ∃ s1, addTask hw s t = .returned s1 ∧
      s1.taskQueue = s.taskQueue ++ [t] ∧
      (s1.threads : Int) =
        s.threads + min (s.scalingFactor : Int) (max 0 (((hw / 2 : Nat) : Int) - s.threads)) ∧
      s1.taskThreshold = (s.taskThreshold + s.scalingFactor) % 2 ^ 64 ∧
      (s.taskThreshold + s.scalingFactor < 2 ^ 64 →
        s1.taskThreshold = s.taskThreshold + s.scalingFactor) ∧
      s1.stop = false ∧ s1.maxQueueSize = s.maxQueueSize ∧
      s1.scalingFactor = s.scalingFactor := by
  have hcond : (s.stop || s.maxQueueSize == 0 ||
      decide (s.taskQueue.length < s.maxQueueSize)) = true := by
    rcases hadm with h0 | hlt
    · simp [h0]
    · simp [hlt]
  have htrig : s.taskThreshold > 0 ∧ s.scalingFactor > 0 ∧
      (s.taskQueue ++ [t]).length > s.taskThreshold := by
    refine ⟨hT, hF, ?_⟩
    simpa using hlen
  refine ⟨{ s with
      taskQueue := s.taskQueue ++ [t]
      threads := s.threads +
        min s.scalingFactor (if hw / 2 > s.threads then hw / 2 - s.threads else 0)
      taskThreshold := (s.taskThreshold + s.scalingFactor) % sizeMod }, ?_, rfl, ?_, rfl, ?_,
    hs, rfl, rfl⟩
  · unfold addTask
    rw [if_pos hcond, if_neg (by simp [hs])]
    simp only
    rw [if_pos htrig]
  · simp only
    split_ifs with hgt <;> omega
  · intro hfit
    exact Nat.mod_eq_of_lt hfit

/-- Witness for C4, amended: the seventh task of `main.cpp` on a host with 16
hardware threads. -/
theorem scaling_trigger_witness :
    ∃ s1, addTask 16 { mainPool with taskQueue := List.replicate 5 (okTask "t") }
        (okTask "u") = .returned s1 ∧
      s1.taskQueue = List.replicate 5 (okTask "t") ++ [okTask "u"] ∧
      (s1.threads : Int) = 3 + min (2 : Int) (max 0 (((16 / 2 : Nat) : Int) - 3)) ∧
      s1.taskThreshold = (5 + 2) % 2 ^ 64 ∧
      (5 + 2 < 2 ^ 64 → s1.taskThreshold = 5 + 2) ∧
      s1.stop = false ∧ s1.maxQueueSize = 10 ∧ s1.scalingFactor = 2 :=
  scaling_trigger 16 { mainPool with taskQueue := List.replicate 5 (okTask "t") }
    (okTask "u") rfl (Or.inr (by decide)) (by decide) (by decide) (by decide)

/-- Counterexample to C4 as stated: with `T = 1` and `F = 2^64 - 1` (both
values of a `size_t`) the trigger fires on the second queued task and the
threshold becomes `0`, not `T + F`. -/
theorem scaling_threshold_wraps :
    wrapPool.stop = false ∧ 0 < wrapPool.taskThreshold ∧ 0 < wrapPool.scalingFactor ∧
      wrapPool.taskThreshold < sizeMod ∧ wrapPool.scalingFactor < sizeMod ∧
      wrapPool.taskThreshold < wrapPool.taskQueue.length + 1 ∧
      ∃ s1, addTask 8 wrapPool (okTask "b") = .returned s1 ∧ s1.taskThreshold = 0 ∧
        s1.taskThreshold ≠ wrapPool.taskThreshold + wrapPool.scalingFactor ∧
        s1.threads = 4 := by
  refine ⟨rfl, by decide, by decide, by decide, by decide, by decide, ?_⟩
  refine ⟨_, rfl, ?_, ?_, ?_⟩
  · decide
  · decide
  · decide

end SubmissionClaims

/-! ## Claims about the workers, teardown and resize -/

section WorkerClaims

variable {α : Type}

/-- C7, as the code has it.  When the action of the task at the head of the
queue throws an exception derived from `std::exception`, the worker catches it
at the loop boundary and writes one line with the task name and the message;
the worker goes on to its next iteration, and the pool it leaves (queue,
worker count, stop flag, configuration) is the one it would leave had the
action returned normally. -/
theorem fault_isolation (s : Pool α) (t : Task α) (rest : List (Task α)) (what : String)
    (hq : s.taskQueue = t :: rest) (hf : t.func t.arg = .threw what) :
    workerIter s =
        .ran { s with taskQueue := rest } t
          (some ("Task " ++ t.name ++ " failed: " ++ what)) ∧
      (∀ fuel tr, workerThread (fuel + 1) s tr =
        workerThread fuel { s with taskQueue := rest }
          ⟨tr.executed ++ [t], tr.log ++ ["Task " ++ t.name ++ " failed: " ++ what]⟩) ∧
      (∀ hw, 0 < s.threads → step hw s .worker = some { s with taskQueue := rest }) ∧
      (∀ t0 : Task α, t0.func t0.arg = .returned →
        workerIter { s with taskQueue := t0 :: rest } =
          .ran { s with taskQueue := rest } t0 none) := by
  have hiter : workerIter s =
      .ran { s with taskQueue := rest } t
        (some ("Task " ++ t.name ++ " failed: " ++ what)) := by
    simp [workerIter, dequeue, hq, hf]
  refine ⟨hiter, ?_, ?_, ?_⟩
  · intro fuel tr
    simp [workerThread, hiter]
  · intro hw hpos
    simp [step, hpos, hiter]
  · intro t0 h0
    simp [workerIter, dequeue, h0]

/-- Witness for C7, amended: the task `f` throws `boom`; the worker logs it
and goes on with the task `b`. -/
theorem fault_isolation_witness :
    faultyPool.taskQueue = [failingTask "f" "boom", okTask "b"] ∧
      (failingTask "f" "boom").func (failingTask "f" "boom").arg = .threw "boom" ∧
      workerIter faultyPool =
        .ran { faultyPool with taskQueue := [okTask "b"] } (failingTask "f" "boom")
          (some ("Task " ++ (failingTask "f" "boom").name ++ " failed: " ++ "boom")) :=
  ⟨rfl, rfl, (fault_isolation faultyPool (failingTask "f" "boom") [okTask "b"] "boom" rfl rfl).1⟩

/-- Counterexample to C7 as stated: the action of the head task throws an
object that is not a `std::exception`; the `catch` does not match, the worker
does not reach a next iteration and the process is terminated. -/
theorem foreign_failure_escapes :
    doomedPool.taskQueue = [foreignTask "x", okTask "b"] ∧
      (foreignTask "x").func (foreignTask "x").arg = .foreign ∧
      workerIter doomedPool =
        .terminated { doomedPool with taskQueue := [okTask "b"] } (foreignTask "x") ∧
      workerThread 3 doomedPool Trace.empty = .terminated ∧
      step 8 doomedPool .worker = none :=
  ⟨rfl, rfl, rfl, rfl, rfl⟩

end WorkerClaims

/-! ## Claims about reachable states and single steps -/

section InvariantClaims

variable {α : Type}

/-- C2, as the code has it.  In every state reached from a freshly constructed
pool by a sequence of pool operations (`addTask`, `setMaxQueueSize`,
`setTaskThresholdAndScaling`, `setThreadCount`, worker steps, teardown) in
which `setMaxQueueSize` is only called with `0` or with a bound that the queue
fits in at that moment: if `maxQueueSize > 0`, the queue length is at most
`maxQueueSize`. -/
theorem capacity_bound (hw threadCount : Nat) (s0 s : Pool α) (ops : List (Op α))
    (h0 : (construct α threadCount).state? = some s0)
    (h : runWith capacityGuard hw s0 ops = some s) (hmax : 0 < s.maxQueueSize) :
    s.taskQueue.length ≤ s.maxQueueSize := by
  have hinit : 0 < s0.maxQueueSize → s0.taskQueue.length ≤ s0.maxQueueSize := by
    rw [construct_state?_eq threadCount s0 h0]
    simp [initial]
  refine runWith_invariant capacityGuard hw
    (fun p => 0 < p.maxQueueSize → p.taskQueue.length ≤ p.maxQueueSize) ?_ ops s0 s hinit h hmax
  intro p p1 op hP hg hst hpos
  obtain ⟨_, hm, hq, _, _⟩ := step_effect hw p p1 op hst
  rcases hq with hle | ⟨hadm, hlen, hsame⟩
  · rcases hm with hm | hop
    · rw [hm] at hpos ⊢
      exact le_trans hle (hP hpos)
    · rw [hop] at hg
      simp only [capacityGuard, Bool.or_eq_true, beq_iff_eq, decide_eq_true_eq] at hg
      omega
  · rw [hsame] at hpos ⊢
    omega

/-- Witness for C2, amended: `main.cpp` up to its third submission, followed
by a worker step and a lowering of the bound that the queue fits in. -/
theorem capacity_bound_witness :
    (construct Unit 3).state? = some { initial Unit with threads := 3 } ∧
      runWith capacityGuard 8 { initial Unit with threads := 3 }
        [.setMaxQueueSize 10, .setTaskThresholdAndScaling 5 2, .addTask (okTask "1"),
          .addTask (okTask "2"), .addTask (okTask "3"), .worker, .setMaxQueueSize 2] =
        some { threads := 3, taskQueue := [okTask "2", okTask "3"], stop := false,
               maxQueueSize := 2, taskThreshold := 5, scalingFactor := 2 } ∧
      [okTask "2", okTask "3"].length ≤ 2 :=
  ⟨rfl, rfl, capacity_bound 8 3 { initial Unit with threads := 3 }
    { threads := 3, taskQueue := [okTask "2", okTask "3"], stop := false,
      maxQueueSize := 2, taskThreshold := 5, scalingFactor := 2 }
    [.setMaxQueueSize 10, .setTaskThresholdAndScaling 5 2, .addTask (okTask "1"),
      .addTask (okTask "2"), .addTask (okTask "3"), .worker, .setMaxQueueSize 2]
    rfl rfl (by decide)⟩

/-- Counterexample to C2 as stated: construct a pool, submit two tasks while
the queue is unbounded, then call `setMaxQueueSize(1)`; the state reached has
`maxQueueSize = 1` and two queued tasks. -/
theorem capacity_exceeded :
    ∃ s : Pool Unit, Reachable 8 3 s ∧ 0 < s.maxQueueSize ∧
      s.maxQueueSize < s.taskQueue.length :=
  ⟨{ threads := 3, taskQueue := [okTask "1", okTask "2"], stop := false,
     maxQueueSize := 1, taskThreshold := 0, scalingFactor := 0 },
    ⟨{ initial Unit with threads := 3 },
      [.addTask (okTask "1"), .addTask (okTask "2"), .setMaxQueueSize 1], rfl, rfl⟩,
    by decide, by decide⟩

/-- C5, as the code has it.  In every state reached from
`construct(threadCount)` with `threadCount ≤ hw / 2` by a sequence of pool
operations in which every `setThreadCount` is called with a count of at most
`hw / 2`, whatever the burst size and the number of scaling triggers, the
worker count is at most `hw / 2`. -/
theorem ceiling_respected (hw threadCount : Nat) (s0 s : Pool α) (ops : List (Op α))
    (hcount : threadCount ≤ hw / 2)
    (h0 : (construct α threadCount).state? = some s0)
    (h : runWith (ceilingGuard hw) hw s0 ops = some s) :
    s.threads ≤ hw / 2 := by
  have hinit : s0.threads ≤ hw / 2 := by
    rw [construct_state?_eq threadCount s0 h0]
    exact hcount
  refine runWith_invariant (ceilingGuard hw) hw (fun p => p.threads ≤ hw / 2) ?_ ops s0 s hinit h
  intro p p1 op hP hg hst
  obtain ⟨_, _, _, ht, _⟩ := step_effect hw p p1 op hst
  rcases ht with ht | hop | ht
  · rw [ht]; exact hP
  · rw [hop] at hg
    simpa [ceilingGuard] using hg
  · simp only at hP
    omega

/-- Witness for C5, amended: on a host with 8 hardware threads, a pool of 3
workers with threshold 1 and factor 5 takes two bursts; the first trigger adds
one worker, reaching the ceiling 4, the second adds none. -/
theorem ceiling_respected_witness :
    3 ≤ 8 / 2 ∧
      (construct Unit 3).state? = some { initial Unit with threads := 3 } ∧
      runWith (ceilingGuard 8) 8 { initial Unit with threads := 3 }
        [.setTaskThresholdAndScaling 1 5, .addTask (okTask "1"), .addTask (okTask "2"),
          .setTaskThresholdAndScaling 1 5, .addTask (okTask "3")] =
        some { threads := 4, taskQueue := [okTask "1", okTask "2", okTask "3"],
               stop := false, maxQueueSize := 0, taskThreshold := 6, scalingFactor := 5 } ∧
      4 ≤ 8 / 2 :=
  ⟨by decide, rfl, rfl, ceiling_respected 8 3 { initial Unit with threads := 3 }
    { threads := 4, taskQueue := [okTask "1", okTask "2", okTask "3"],
      stop := false, maxQueueSize := 0, taskThreshold := 6, scalingFactor := 5 }
    [.setTaskThresholdAndScaling 1 5, .addTask (okTask "1"), .addTask (okTask "2"),
      .setTaskThresholdAndScaling 1 5, .addTask (okTask "3")]
    (by decide) rfl rfl⟩

/-- Counterexample to C5 as stated: on a host with 4 hardware threads the
ceiling is 2, and `construct(3)`, as in `main.cpp`, has 3 workers; so has
`setThreadCount(3)` on a pool built with one worker. -/
theorem ceiling_exceeded :
    (∃ s : Pool Unit, Reachable 4 3 s ∧ 4 / 2 < s.threads) ∧
      (∃ s : Pool Unit, Reachable 4 1 s ∧ 4 / 2 < s.threads) :=
  ⟨⟨{ initial Unit with threads := 3 }, ⟨{ initial Unit with threads := 3 }, [], rfl, rfl⟩,
      by decide⟩,
    ⟨{ initial Unit with threads := 3 },
      ⟨{ initial Unit with threads := 1 }, [.setThreadCount 3], rfl, rfl⟩, by decide⟩⟩

/-- C9, as the code has it.  In every transition of the pool other than
`setThreadCount` (`addTask`, `setMaxQueueSize`, `setTaskThresholdAndScaling`,
worker steps, teardown), a stop flag that is true before the step is true after
it; `setThreadCount` always returns with the stop flag false. -/
theorem stop_flag_steps (hw : Nat) (s s1 : Pool α) (op : Op α)
    (h : step hw s op = some s1) :
    ((∀ c, op ≠ .setThreadCount c) → s.stop = true → s1.stop = true) ∧
      (∀ c, op = .setThreadCount c → s1.stop = false) := by
  obtain ⟨hs, _⟩ := step_effect hw s s1 op h
  constructor
  · intro hne hstop
    rcases hs with hs | ⟨⟨c, hc⟩, _⟩ | ⟨_, hs⟩
    · rw [hs]; exact hstop
    · exact absurd hc (hne c)
    · exact hs
  · intro c hc
    rcases hs with hs | ⟨_, hs⟩ | ⟨ht, _⟩
    · subst hc
      simp only [step] at h
      obtain ⟨tr, htr⟩ := state?_some _ _ h
      exact (setThreadCount_frame [] s s1 c tr htr).2.1
    · exact hs
    · rw [hc] at ht
      cases ht

/-- Witness for C9, amended: `addTask` on a pool that is being torn down. -/
theorem stop_flag_steps_witness :
    step 8 (signalStop mainPool) (.addTask (okTask "a")) = some (signalStop mainPool) ∧
      (((∀ c, (Op.addTask (okTask "a") : Op Unit) ≠ .setThreadCount c) →
          (signalStop mainPool).stop = true → (signalStop mainPool).stop = true) ∧
        (∀ c, (Op.addTask (okTask "a") : Op Unit) = .setThreadCount c →
          (signalStop mainPool).stop = false)) :=
  ⟨rfl, stop_flag_steps 8 (signalStop mainPool) (signalStop mainPool) (.addTask (okTask "a")) rfl⟩

/-- Counterexample to C9 as stated: the flag is true after teardown of the
pool of `main.cpp`, and the transition `setThreadCount(3)` from that state ends
with the flag false.  Every call of `setThreadCount` does this on its own: it
passes through `signalStop`, where the flag is true, and returns with it
false, whatever the interleaving of the old workers. -/
theorem stop_flag_reverts :
    step 8 mainPool .teardown = some (signalStop mainPool) ∧
      (signalStop mainPool).stop = true ∧
      step 8 (signalStop mainPool) (.setThreadCount 3) = some mainPool ∧
      mainPool.stop = false ∧
      (signalStop busyPool).stop = true ∧
      (∀ sched : List Nat, setThreadCount sched busyPool 1 =
        .returned ({ signalStop busyPool with taskQueue := [], stop := false },
          ⟨[okTask "a", okTask "b"], []⟩)) :=
  ⟨rfl, rfl, rfl, rfl, rfl,
    fun sched => by rw [setThreadCount_single sched busyPool 1 rfl]; rfl⟩

/-- C10, as the code has it.  For every transition of the pool other than
`setTaskThresholdAndScaling`, taken in a state where `taskThreshold +
scalingFactor` fits in a `size_t`, the threshold after the step is greater than
or equal to the threshold before it. -/
theorem threshold_monotone (hw : Nat) (s s1 : Pool α) (op : Op α)
    (h : step hw s op = some s1)
    (hop : ∀ a b, op ≠ .setTaskThresholdAndScaling a b)
    (hfit : s.taskThreshold + s.scalingFactor < 2 ^ 64) :
    s.taskThreshold ≤ s1.taskThreshold := by
  obtain ⟨_, _, _, _, ht⟩ := step_effect hw s s1 op h
  rcases ht with ht | ⟨b, hb⟩ | ht
  · rw [ht]
  · exact absurd hb (hop _ _)
  · rw [ht, sizeMod, Nat.mod_eq_of_lt hfit]
    exact Nat.le_add_right _ _

/-- Witness for C10, amended: the sixth task of `main.cpp` fires the trigger
and the threshold goes from 5 to 7. -/
theorem threshold_monotone_witness :
    step 16 { mainPool with taskQueue := List.replicate 5 (okTask "t") }
        (.addTask (okTask "u")) =
        some { threads := 5, taskQueue := List.replicate 5 (okTask "t") ++ [okTask "u"],
               stop := false, maxQueueSize := 10, taskThreshold := 7, scalingFactor := 2 } ∧
      (5 : Nat) ≤ 7 :=
  ⟨rfl, threshold_monotone 16 { mainPool with taskQueue := List.replicate 5 (okTask "t") }
    { threads := 5, taskQueue := List.replicate 5 (okTask "t") ++ [okTask "u"],
      stop := false, maxQueueSize := 10, taskThreshold := 7, scalingFactor := 2 }
    (.addTask (okTask "u")) rfl (by intro a b hab; cases hab) (by decide)⟩

/-- Counterexample to C10 as stated: `setTaskThresholdAndScaling(1, 1)` lowers
the threshold of the pool of `main.cpp` from 5 to 1; and with threshold 1 and
factor `2^64 - 1` the `addTask` that fires the trigger wraps the threshold
around to 0. -/
theorem threshold_lowered :
    step 8 mainPool (.setTaskThresholdAndScaling 1 1) =
        some { mainPool with taskThreshold := 1, scalingFactor := 1 } ∧
      ({ mainPool with taskThreshold := 1, scalingFactor := 1 } : Pool Unit).taskThreshold <
        mainPool.taskThreshold ∧
      step 8 wrapPool (.addTask (okTask "b")) =
        some { wrapPool with
          taskQueue := [okTask "a", okTask "b"], threads := 4, taskThreshold := 0 } ∧
      ({ wrapPool with
          taskQueue := [okTask "a", okTask "b"], threads := 4, taskThreshold := 0 } :
        Pool Unit).taskThreshold < wrapPool.taskThreshold :=
  ⟨rfl, by decide, rfl, by decide⟩

end InvariantClaims

end DynamicThreadPool
